import Mathlib

/-!
Verification of the xv6 lab-lock kernel, consisting of the per-core physical
page allocator (`src/kernel/kalloc.c`) and the sharded LRU buffer cache
(`src/unnamed/part_000`, the repository's `bio.c`).

The C code is shallowly embedded: global state becomes explicit state records,
panics become `Option` failures (`none` = fatal abort), and the single shared
disk primitive is recorded as a list of I/O events.  Machine integers are `Nat`
with explicit `% 2^32` where 32-bit overflow matters (the buffer reference
counts, declared `uint` in xv6's `buf.h`).
-/

namespace Xv6

/-! ## Page allocator (`kalloc.c`)

`PGSIZE` is 4096 as in xv6's `riscv.h`.  The kernel-image end address (`end`),
the top of physical memory (`PHYSTOP`) and the core count (`NCPU`) are link- or
configuration-time constants not present in the two source files, so they are
parameters of the model; the number of cores is the length of the free-list
vector.  Page contents are modelled as a byte memory `Nat → Nat`; the intrusive
`struct run` link that the C code stores in a free page's first bytes is
represented by the list structure itself. -/

def PGSIZE : Nat := 4096

/-- `PGROUNDUP` from xv6's `riscv.h`: round an address up to a page boundary. -/
def PGROUNDUP (a : Nat) : Nat := ((a + PGSIZE - 1) / PGSIZE) * PGSIZE

/-- The allocator state: one free list (list of page addresses, head first) per
core, plus the byte contents of physical memory. -/
structure KState where
  freelists : List (List Nat)
  mem : Nat → Nat

instance : Inhabited KState := ⟨⟨[], fun _ => 0⟩⟩

/-- `kfree(pa)` run by core `cpu`: panic (`none`) unless `pa` is page-aligned
and inside `[endA, physTop)`; otherwise fill the page with the byte 1 and push
it onto the calling core's free list. -/
def kfree (endA physTop cpu pa : Nat) (st : KState) : Option KState :=
  if pa % PGSIZE ≠ 0 ∨ pa < endA ∨ physTop ≤ pa then
    none
  else
    some { freelists := st.freelists.set cpu (pa :: st.freelists.getD cpu []),
           mem := fun a => if pa ≤ a ∧ a < pa + PGSIZE then 1 else st.mem a }

/-- The page addresses visited by `freerange(s, e)`: starting at `PGROUNDUP s`,
every `PGSIZE` step while the whole page fits below `e`. -/
def pagesIn (s e : Nat) : List Nat :=
  (List.range ((e - PGROUNDUP s) / PGSIZE)).map (fun i => PGROUNDUP s + PGSIZE * i)

/-- `freerange(pa_start, pa_end)`: `kfree` each page in turn (run by core `cpu`). -/
def freerange (endA physTop cpu s e : Nat) (st : KState) : Option KState :=
  (pagesIn s e).foldl (fun acc p => acc.bind (kfree endA physTop cpu p)) (some st)

/-- `kinit()` run by core `cpu` on a machine with `ncpu` cores: initialize all
per-core locks (lists start empty) and `freerange(end, PHYSTOP)`. -/
def kinit (endA physTop ncpu cpu : Nat) : Option KState :=
  freerange endA physTop cpu endA physTop
    { freelists := List.replicate ncpu [], mem := fun _ => 0 }

/-- One step of `kalloc`'s steal loop: try core indices in order, skipping the
calling core, returning the first index whose free list is non-empty together
with that list's head and tail. -/
def stealFrom (cpu : Nat) (st : KState) : List Nat → Option (Nat × Nat × List Nat)
  | [] => none
  | i :: is =>
    if i = cpu then stealFrom cpu st is
    else
      match st.freelists.getD i [] with
      | [] => stealFrom cpu st is
      | r :: rest => some (i, r, rest)

/-- Fill one page at `pa` with the byte 5 (the `kalloc` junk pattern). -/
def fill5 (pa : Nat) (m : Nat → Nat) : Nat → Nat :=
  fun a => if pa ≤ a ∧ a < pa + PGSIZE then 5 else m a

/-- `kalloc()` run by core `cpu`: pop the calling core's free list if non-empty;
otherwise scan every other core's list in index order and steal the first page
found; return `none` (and an unchanged state) if every list is empty.  A
returned page is filled with the byte 5. -/
def kalloc (cpu : Nat) (st : KState) : Option Nat × KState :=
  match st.freelists.getD cpu [] with
  | r :: rest =>
    (some r, { freelists := st.freelists.set cpu rest, mem := fill5 r st.mem })
  | [] =>
    match stealFrom cpu st (List.range st.freelists.length) with
    | some (i, r, rest) =>
      (some r, { freelists := st.freelists.set i rest, mem := fill5 r st.mem })
    | none => (none, st)

/-! ## Buffer cache (`bio.c`, `src/unnamed/part_000`)

The cache is `NBUCKETS = 7` shards; each shard owns a fixed array of buffers
and a circular recency list threaded through them.  A buffer is addressed by a
reference `(shard array index, slot index)` — the model of a `struct buf *`.
The recency list is modelled as the list of references reachable from
`head.next` (most recent first); the sentinel itself is implicit.  Reference
counts are the C `uint` (xv6 `buf.h`), so increment and decrement are modulo
`2^32`.  Sleeping locks collapse, in this sequential model, to a held flag,
and `virtio_disk_rw` to an I/O event record plus a disk oracle. -/

def NBUCKETS : Nat := 7

/-- `2^32`, the modulus of the C `uint` arithmetic on `refcnt`. -/
def U32 : Nat := 2 ^ 32

/-- A buffer reference: which shard's `buf` array, and which index in it. -/
abbrev BRef := Nat × Nat

/-- One `struct buf`.  `data` abstracts the 1024-byte payload as a single
value; `lockHeld` is the sleep-lock state. C globals are zero-initialized,
which the default field values mirror. -/
structure Buf where
  dev : Nat := 0
  blockno : Nat := 0
  valid : Bool := false
  refcnt : Nat := 0
  lockHeld : Bool := false
  data : Nat := 0
  deriving Repr, DecidableEq, Inhabited

/-- One shard of `bcache_list`: its recency list (from `head.next`, most
recently used first) and its slot array. -/
structure Shard where
  order : List BRef := []
  slots : List Buf := []
  deriving Repr, DecidableEq, Inhabited

/-- The whole `bcache_list` array. -/
structure BCache where
  shards : List Shard
  deriving Repr, DecidableEq

instance : Inhabited BCache := ⟨⟨[]⟩⟩

/-- Dereference a buffer pointer. -/
def getSlot (c : BCache) (r : BRef) : Buf :=
  ((c.shards.getD r.1 default).slots.getD r.2 default)

/-- Store through a buffer pointer. -/
def setSlot (c : BCache) (r : BRef) (b : Buf) : BCache :=
  { shards := c.shards.set r.1
      (let sh := c.shards.getD r.1 default
       { sh with slots := sh.slots.set r.2 b }) }

/-- One shard as `binit()` builds it: `nslots` zero-initialized buffers, each
inserted at `head.next` in array order, so the recency list ends up in
reverse array order. -/
def binitShard (s nslots : Nat) : Shard :=
  { order := (((List.range nslots).map (fun i => ((s, i) : BRef)))).reverse,
    slots := List.replicate nslots {} }

/-- `binit()`: every shard gets `nslots` buffers (`NBUF/NBUCKETS` in the C
code). -/
def binit (nslots : Nat) : BCache :=
  { shards := (List.range NBUCKETS).map (fun s => binitShard s nslots) }

/-- The hit test of `bget`'s first loop. -/
def bmatch (dev blockno : Nat) (b : Buf) : Bool :=
  b.dev = dev && b.blockno = blockno

/-- `bget`'s first loop: scan the recency list of shard `blockno % NBUCKETS`
from `head.next` for a cached copy of `(dev, blockno)`. -/
def hitScan (c : BCache) (dev blockno : Nat) : Option BRef :=
  ((c.shards.getD (blockno % NBUCKETS) default).order).find?
    (fun r => bmatch dev blockno (getSlot c r))

/-- `bget`'s second loop: scan the same recency list from `head.prev`
(i.e. in reverse) for the first buffer with `refcnt == 0`. -/
def recycleScan (c : BCache) (blockno : Nat) : Option BRef :=
  ((c.shards.getD (blockno % NBUCKETS) default).order).reverse.find?
    (fun r => (getSlot c r).refcnt = 0)

/-- `bget(dev, blockno)`: on a hit increment `refcnt` and acquire the sleep
lock; on a miss recycle the least-recently-used `refcnt == 0` buffer,
overwriting its identity, clearing `valid` and setting `refcnt = 1`; panic
(`none`) if the shard has no `refcnt == 0` buffer. -/
def bget (c : BCache) (dev blockno : Nat) : Option (BRef × BCache) :=
  match hitScan c dev blockno with
  | some r =>
    some (r, setSlot c r { getSlot c r with
      refcnt := ((getSlot c r).refcnt + 1) % U32, lockHeld := true })
  | none =>
    match recycleScan c blockno with
    | some r =>
      some (r, setSlot c r { getSlot c r with dev := dev, blockno := blockno,
                                              valid := false, refcnt := 1,
                                              lockHeld := true })
    | none => none

/-- One call to the storage collaborator `virtio_disk_rw`, addressed by
(device, block, direction) as in the spec; a write also carries the payload. -/
structure IOOp where
  dev : Nat
  blockno : Nat
  isWrite : Bool
  payload : Nat := 0
  deriving Repr, DecidableEq

/-- `bread(dev, blockno)` against a disk oracle `disk`: `bget`, then if the
buffer is invalid do exactly one disk read into the payload and mark it valid.
Returns the buffer, the new cache state, and the I/O performed. -/
def bread (disk : Nat → Nat → Nat) (c : BCache) (dev blockno : Nat) :
    Option (BRef × BCache × List IOOp) :=
  match bget c dev blockno with
  | none => none
  | some (r, c1) =>
    if (getSlot c1 r).valid then some (r, c1, [])
    else
      some (r,
        setSlot c1 r { getSlot c1 r with
          data := disk (getSlot c1 r).dev (getSlot c1 r).blockno, valid := true },
        [{ dev := (getSlot c1 r).dev, blockno := (getSlot c1 r).blockno,
           isWrite := false }])

/-- `bwrite(b)`: panic unless the caller holds the sleep lock; otherwise one
disk write of the payload.  The cache state is unchanged. -/
def bwrite (c : BCache) (r : BRef) : Option (List IOOp) :=
  if (getSlot c r).lockHeld then
    some [{ dev := (getSlot c r).dev, blockno := (getSlot c r).blockno,
            isWrite := true, payload := (getSlot c r).data }]
  else none

/-- The shard list after the unlink half of `brelse`'s list surgery:
`r` removed from every recency list. -/
def unlinkAll (c : BCache) (r : BRef) : List Shard :=
  c.shards.map (fun sh => { sh with order := sh.order.filter (fun x => x ≠ r) })

/-- The list surgery at the end of `brelse`: unlink `r` from its current
position and relink it at `head.next` of shard `bn`'s recency list. -/
def relinkHead (c : BCache) (bn : Nat) (r : BRef) : BCache :=
  { shards := (unlinkAll c r).set bn
      { (unlinkAll c r).getD bn default with
        order := r :: ((unlinkAll c r).getD bn default).order } }

/-- `brelse(b)`: panic unless the sleep lock is held; release it, decrement
`refcnt` (a `uint`, so modulo `2^32`), and if it reached zero move the buffer
to the head of the recency list of shard `b->blockno % NBUCKETS`. -/
def brelse (c : BCache) (r : BRef) : Option BCache :=
  if (getSlot c r).lockHeld then
    if ((getSlot c r).refcnt + (U32 - 1)) % U32 = 0 then
      some (relinkHead
        (setSlot c r { getSlot c r with lockHeld := false,
                                        refcnt := ((getSlot c r).refcnt + (U32 - 1)) % U32 })
        ((getSlot c r).blockno % NBUCKETS) r)
    else
      some (setSlot c r { getSlot c r with lockHeld := false,
                                           refcnt := ((getSlot c r).refcnt + (U32 - 1)) % U32 })
  else none

/-- `bpin(b)`: increment `refcnt` under the shard lock; no other change. -/
def bpin (c : BCache) (r : BRef) : BCache :=
  setSlot c r { getSlot c r with refcnt := ((getSlot c r).refcnt + 1) % U32 }

/-- `bunpin(b)`: decrement `refcnt` under the shard lock, with no check and no
panic; a C `uint` decrement, so 0 wraps to `2^32 - 1`. -/
def bunpin (c : BCache) (r : BRef) : BCache :=
  setSlot c r { getSlot c r with refcnt := ((getSlot c r).refcnt + (U32 - 1)) % U32 }

/-- Well-formedness of a cache state: every reference on any recency list
points inside the shard array and inside that shard's slot array. -/
def wfB (c : BCache) : Bool :=
  c.shards.all (fun sh => sh.order.all (fun r =>
    decide (r.1 < c.shards.length) &&
    decide (r.2 < ((c.shards.getD r.1 default).slots.length))))

/-! ### The C9 scenario: acquire and release `K` distinct blocks of one shard,
then acquire a `(K+1)`-th.  Blocks `7*0, 7*1, …` of device 1 all hash to
shard 0. -/

/-- One round of the LRU scenario: `bget` block `7*j` of device 1, then
immediately `brelse` it. -/
def lruRound (c : BCache) (j : Nat) : Option BCache :=
  match bget c 1 (7 * j) with
  | none => none
  | some (r, c1) => brelse c1 r

/-- The scenario: initialize a cache with `K` slots per shard, then
acquire+release blocks `7*0 … 7*(K-1)` in order. -/
def lruScenario (K : Nat) : Option BCache :=
  (List.range K).foldlM lruRound (binit K)

/-- A slot of shard 0 after block `7*i` has been acquired and released. -/
def relBuf (i : Nat) : Buf :=
  { dev := 1, blockno := 7 * i, valid := false, refcnt := 0,
    lockHeld := false, data := 0 }

/-- Shard 0 of the scenario's state after `j` rounds: slots `0 … j-1` hold
the released blocks, slots `j … K-1` are untouched; the recency list is
`j-1, …, 0` (most recently released first) followed by `K-1, …, j`. -/
def lruShard0 (K j : Nat) : Shard :=
  { order := (((List.range j).reverse ++
        (List.range' j (K - j)).reverse).map (fun i => ((0, i) : BRef))),
    slots := (List.range K).map (fun i => if i < j then relBuf i else {}) }

/-- The whole cache state after `j` rounds of the scenario. -/
def lruState (K j : Nat) : BCache :=
  { shards := (List.range NBUCKETS).map
      (fun s => if s = 0 then lruShard0 K j else binitShard s K) }

/-! ## Specification-level predicates -/

/-- Every free list holds only page-aligned addresses inside the managed
range `[endA, physTop)`. -/
def Good (endA physTop : Nat) (st : KState) : Prop :=
  ∀ l ∈ st.freelists, ∀ a ∈ l, a % PGSIZE = 0 ∧ endA ≤ a ∧ a < physTop

/-- Allocator states reachable through the public operations: an initialized
state, then any interleaving of `kfree` (successful calls) and `kalloc` by any
cores. -/
inductive Reach (endA physTop : Nat) : KState → Prop where
  | init (ncpu cpu : Nat) (st : KState)
      (h : kinit endA physTop ncpu cpu = some st) : Reach endA physTop st
  | free (st : KState) (cpu pa : Nat) (st' : KState)
      (hr : Reach endA physTop st)
      (h : kfree endA physTop cpu pa st = some st') : Reach endA physTop st'
  | alloc (st : KState) (cpu : Nat) (hr : Reach endA physTop st) :
      Reach endA physTop (kalloc cpu st).2

/-! ## Basic list lemmas used throughout -/

theorem getD_set_of_ne {α : Type} (l : List α) (i j : Nat) (a d : α) (h : i ≠ j) :
    (l.set i a).getD j d = l.getD j d := by
  simp [List.getD_eq_getElem?_getD, List.getElem?_set_ne h]

theorem getD_set_self {α : Type} (l : List α) (i : Nat) (a d : α) (h : i < l.length) :
    (l.set i a).getD i d = a := by
  simp [List.getD_eq_getElem?_getD, List.getElem?_set_self', h]

theorem mem_of_mem_set {α : Type} {b a : α} {l : List α} {i : Nat}
    (h : b ∈ l.set i a) : b = a ∨ b ∈ l :=
  (List.mem_or_eq_of_mem_set h).symm

theorem getD_replicate_nil {α : Type} (n j : Nat) :
    (List.replicate n ([] : List α)).getD j [] = [] := by
  rcases Nat.lt_or_ge j n with h | h
  · simp [List.getD_eq_getElem?_getD, List.getElem?_replicate, h]
  · rw [List.getD_eq_getElem?_getD, List.getElem?_eq_none (by simpa using h)]
    rfl

theorem mem_of_mem_getD {α : Type} {st : List (List α)} {i : Nat} {a : α}
    (h : a ∈ st.getD i []) : ∃ l ∈ st, a ∈ l := by
  rcases Nat.lt_or_ge i st.length with hi | hi
  · refine ⟨st.getD i [], ?_, h⟩
    rw [List.getD_eq_getElem?_getD, List.getElem?_eq_getElem hi]
    exact List.getElem_mem hi
  · rw [List.getD_eq_getElem?_getD, List.getElem?_eq_none (by simpa using hi)] at h
    cases h

/-! ## Page allocator: inversion and invariant lemmas -/

/-- Inversion of a successful `kfree`: the validity checks passed and the page
was pushed onto the calling core's list. -/
theorem kfree_inv {endA physTop cpu pa : Nat} {st st' : KState}
    (h : kfree endA physTop cpu pa st = some st') :
    pa % PGSIZE = 0 ∧ endA ≤ pa ∧ pa < physTop ∧
    st'.freelists = st.freelists.set cpu (pa :: st.freelists.getD cpu []) := by
  unfold kfree at h
  split at h
  · cases h
  · next hc =>
    cases h
    refine ⟨by omega, by omega, by omega, rfl⟩

theorem good_kfree {endA physTop cpu pa : Nat} {st st' : KState}
    (h : kfree endA physTop cpu pa st = some st')
    (hg : Good endA physTop st) : Good endA physTop st' := by
  obtain ⟨h1, h2, h3, h4⟩ := kfree_inv h
  intro l hl a ha
  rw [h4] at hl
  rcases mem_of_mem_set hl with rfl | hl
  · rcases List.mem_cons.mp ha with rfl | ha
    · exact ⟨h1, h2, h3⟩
    · obtain ⟨l', hl', ha'⟩ := mem_of_mem_getD ha
      exact hg l' hl' a ha'
  · exact hg l hl a ha

/-- A successful steal scan: the found index is in the scanned list, is not the
local core, its list starts with the stolen page, and it is the first such
index in the scan order. -/
theorem stealFrom_eq_some {cpu : Nat} {st : KState} {l : List Nat}
    {i r : Nat} {rest : List Nat}
    (h : stealFrom cpu st l = some (i, r, rest)) :
    i ∈ l ∧ i ≠ cpu ∧ st.freelists.getD i [] = r :: rest ∧
    ∃ l1 l2, l = l1 ++ i :: l2 ∧
      ∀ j ∈ l1, j = cpu ∨ st.freelists.getD j [] = [] := by
  induction l with
  | nil => cases h
  | cons a l ih =>
    rw [stealFrom] at h
    by_cases ha : a = cpu
    · rw [if_pos ha] at h
      obtain ⟨h1, h2, h3, l1, l2, h4, h5⟩ := ih h
      exact ⟨List.mem_cons_of_mem _ h1, h2, h3, a :: l1, l2, by rw [h4]; rfl,
        fun j hj => (List.mem_cons.mp hj).elim (fun hj => Or.inl (hj ▸ ha)) (h5 j)⟩
    · rw [if_neg ha] at h
      cases hga : st.freelists.getD a [] with
      | nil =>
        rw [hga] at h
        obtain ⟨h1, h2, h3, l1, l2, h4, h5⟩ := ih h
        exact ⟨List.mem_cons_of_mem _ h1, h2, h3, a :: l1, l2, by rw [h4]; rfl,
          fun j hj => (List.mem_cons.mp hj).elim (fun hj => Or.inr (hj ▸ hga)) (h5 j)⟩
      | cons r' rest' =>
        rw [hga] at h
        cases h
        exact ⟨List.mem_cons_self _ _, ha, hga, [], l, rfl, by simp⟩

/-- The steal scan fails exactly when every scanned list (other than the local
core's) is empty. -/
theorem stealFrom_eq_none {cpu : Nat} {st : KState} {l : List Nat} :
    stealFrom cpu st l = none ↔
      ∀ i ∈ l, i = cpu ∨ st.freelists.getD i [] = [] := by
  induction l with
  | nil => simp [stealFrom]
  | cons a l ih =>
    rw [stealFrom]
    by_cases ha : a = cpu
    · rw [if_pos ha]
      simp only [List.mem_cons]
      constructor
      · intro h j hj
        rcases hj with rfl | hj
        · exact Or.inl ha
        · exact ih.mp h j hj
      · intro h
        exact ih.mpr fun j hj => h j (Or.inr hj)
    · rw [if_neg ha]
      cases hga : st.freelists.getD a [] with
      | nil =>
        simp only [List.mem_cons]
        constructor
        · intro h j hj
          rcases hj with rfl | hj
          · exact Or.inr hga
          · exact ih.mp h j hj
        · intro h
          exact ih.mpr fun j hj => h j (Or.inr hj)
      | cons r' rest' =>
        simp only [List.mem_cons]
        constructor
        · intro h; cases h
        · intro h
          rcases h a (Or.inl rfl) with h | h
          · exact absurd h ha
          · rw [hga] at h; cases h

theorem getD_eq_nil_of_all_nil {st : KState}
    (h : ∀ l ∈ st.freelists, l = []) (i : Nat) : st.freelists.getD i [] = [] := by
  rcases Nat.lt_or_ge i st.freelists.length with hi | hi
  · have : st.freelists.getD i [] ∈ st.freelists := by
      rw [List.getD_eq_getElem?_getD, List.getElem?_eq_getElem hi]
      exact List.getElem_mem hi
    exact h _ this
  · rw [List.getD_eq_getElem?_getD, List.getElem?_eq_none (by simpa using hi)]
    rfl

/-- Evaluation of `kalloc` when the local free list is non-empty. -/
theorem kalloc_eq_local {cpu : Nat} {st : KState} {r : Nat} {rest : List Nat}
    (h : st.freelists.getD cpu [] = r :: rest) :
    kalloc cpu st =
      (some r, { freelists := st.freelists.set cpu rest, mem := fill5 r st.mem }) := by
  unfold kalloc
  rw [h]

/-- Evaluation of `kalloc` when the local list is empty and the steal scan
succeeds. -/
theorem kalloc_eq_steal {cpu : Nat} {st : KState} {i r : Nat} {rest : List Nat}
    (h1 : st.freelists.getD cpu [] = [])
    (h2 : stealFrom cpu st (List.range st.freelists.length) = some (i, r, rest)) :
    kalloc cpu st =
      (some r, { freelists := st.freelists.set i rest, mem := fill5 r st.mem }) := by
  unfold kalloc
  rw [h1, h2]

/-- Evaluation of `kalloc` when every list turns up empty. -/
theorem kalloc_eq_empty {cpu : Nat} {st : KState}
    (h1 : st.freelists.getD cpu [] = [])
    (h2 : stealFrom cpu st (List.range st.freelists.length) = none) :
    kalloc cpu st = (none, st) := by
  unfold kalloc
  rw [h1, h2]

/-- A page returned by `kalloc` was on one of the free lists. -/
theorem kalloc_some_mem {cpu : Nat} {st : KState} {r : Nat}
    (h : (kalloc cpu st).1 = some r) : ∃ l ∈ st.freelists, r ∈ l := by
  cases hloc : st.freelists.getD cpu [] with
  | cons r' rest =>
    rw [kalloc_eq_local hloc] at h
    cases h
    exact mem_of_mem_getD (hloc ▸ List.mem_cons_self _ _)
  | nil =>
    cases hsteal : stealFrom cpu st (List.range st.freelists.length) with
    | none => rw [kalloc_eq_empty hloc hsteal] at h; cases h
    | some v =>
      obtain ⟨i, r', rest⟩ := v
      rw [kalloc_eq_steal hloc hsteal] at h
      cases h
      obtain ⟨_, _, hg, _⟩ := stealFrom_eq_some hsteal
      exact mem_of_mem_getD (hg ▸ List.mem_cons_self _ _)

theorem good_kalloc {endA physTop cpu : Nat} {st : KState}
    (hg : Good endA physTop st) : Good endA physTop (kalloc cpu st).2 := by
  cases hloc : st.freelists.getD cpu [] with
  | cons r' rest =>
    rw [kalloc_eq_local hloc]
    intro l hl a ha
    rcases mem_of_mem_set hl with rfl | hl
    · obtain ⟨l', hl', ha'⟩ := mem_of_mem_getD (hloc ▸ List.mem_cons_of_mem r' ha)
      exact hg l' hl' a ha'
    · exact hg l hl a ha
  | nil =>
    cases hsteal : stealFrom cpu st (List.range st.freelists.length) with
    | none => rw [kalloc_eq_empty hloc hsteal]; exact hg
    | some v =>
      obtain ⟨i, r', rest⟩ := v
      rw [kalloc_eq_steal hloc hsteal]
      obtain ⟨_, _, hgd, _⟩ := stealFrom_eq_some hsteal
      intro l hl a ha
      rcases mem_of_mem_set hl with rfl | hl
      · obtain ⟨l', hl', ha'⟩ := mem_of_mem_getD (hgd ▸ List.mem_cons_of_mem r' ha)
        exact hg l' hl' a ha'
      · exact hg l hl a ha

/-- C6 — `kfree(p)` aborts fatally on a misaligned or out-of-range pointer;
otherwise it fills the whole page with the "freed" byte 1, pushes the page
onto the calling core's free list, and leaves every other core's list and
every byte outside the page unchanged. -/
theorem kfree_guard_and_push (endA physTop cpu pa : Nat) (st : KState)
    (hcpu : cpu < st.freelists.length) :
    (¬(pa % PGSIZE = 0 ∧ endA ≤ pa ∧ pa < physTop) →
        kfree endA physTop cpu pa st = none) ∧
    ((pa % PGSIZE = 0 ∧ endA ≤ pa ∧ pa < physTop) →
        ∃ st', kfree endA physTop cpu pa st = some st' ∧
          st'.freelists.getD cpu [] = pa :: st.freelists.getD cpu [] ∧
          (∀ j, j ≠ cpu → st'.freelists.getD j [] = st.freelists.getD j []) ∧
          (∀ a, pa ≤ a → a < pa + PGSIZE → st'.mem a = 1) ∧
          (∀ a, a < pa ∨ pa + PGSIZE ≤ a → st'.mem a = st.mem a)) := by
  constructor
  · intro h
    unfold kfree
    rw [if_pos (by omega)]
  · rintro ⟨h1, h2, h3⟩
    refine ⟨_, by unfold kfree; rw [if_neg (by omega)], ?_, ?_, ?_, ?_⟩
    · exact getD_set_self _ _ _ _ hcpu
    · intro j hj
      exact getD_set_of_ne _ _ _ _ _ (fun e => hj e.symm)
    · intro a ha1 ha2
      simp only
      rw [if_pos ⟨ha1, ha2⟩]
    · intro a ha
      simp only
      rw [if_neg (by omega)]

/-- C6 (witness) — on a concrete 2-core state, `kfree` of the misaligned
pointer 4097 aborts, and `kfree` of the valid page 4096 pushes it onto core
0's list. -/
theorem kfree_guard_and_push_witness :
    kfree 0 8192 0 4097 { freelists := [[], []], mem := fun _ => 0 } = none ∧
    ∃ st', kfree 0 8192 0 4096 { freelists := [[], []], mem := fun _ => 0 } = some st' ∧
      st'.freelists.getD 0 [] = 4096 :: ([] : List Nat) ∧
      (∀ j, j ≠ 0 → st'.freelists.getD j [] =
        ({ freelists := [[], []], mem := fun _ => 0 } : KState).freelists.getD j []) ∧
      (∀ a, 4096 ≤ a → a < 4096 + PGSIZE → st'.mem a = 1) ∧
      (∀ a, a < 4096 ∨ 4096 + PGSIZE ≤ a → st'.mem a = 0) :=
  ⟨(kfree_guard_and_push 0 8192 0 4097 _ (by decide)).1 (by decide),
   (kfree_guard_and_push 0 8192 0 4096 _ (by decide)).2 (by decide)⟩

/-- C7 — `kalloc()` returns empty exactly when every core's free list is
empty (and then changes nothing); otherwise it pops the head of the calling
core's list if non-empty, and else steals the head of the first non-empty
list in core-index order, removing exactly that one page from exactly that
one list.  Exhaustion is an empty result, never a fatal abort (`kalloc` is
total). -/
theorem kalloc_pop_or_steal (cpu : Nat) (st : KState) :
    ((kalloc cpu st).1 = none ↔ ∀ l ∈ st.freelists, l = []) ∧
    ((kalloc cpu st).1 = none → (kalloc cpu st).2 = st) ∧
    (∀ r rest, st.freelists.getD cpu [] = r :: rest →
        (kalloc cpu st).1 = some r ∧
        (kalloc cpu st).2.freelists = st.freelists.set cpu rest) ∧
    (st.freelists.getD cpu [] = [] → ∀ r, (kalloc cpu st).1 = some r →
        ∃ i rest, i < st.freelists.length ∧ i ≠ cpu ∧
          st.freelists.getD i [] = r :: rest ∧
          (∀ j, j < i → j ≠ cpu → st.freelists.getD j [] = []) ∧
          (kalloc cpu st).2.freelists = st.freelists.set i rest) := by
  refine ⟨⟨?_, ?_⟩, ?_, ?_, ?_⟩
  · -- none → all empty
    intro h l hl
    cases hloc : st.freelists.getD cpu [] with
    | cons r rest => rw [kalloc_eq_local hloc] at h; cases h
    | nil =>
      cases hsteal : stealFrom cpu st (List.range st.freelists.length) with
      | some v =>
        obtain ⟨i, r, rest⟩ := v
        rw [kalloc_eq_steal hloc hsteal] at h
        cases h
      | none =>
        obtain ⟨j, hj, rfl⟩ := List.mem_iff_getElem.mp hl
        have hget : st.freelists.getD j [] = st.freelists[j] := by
          simp [List.getD_eq_getElem?_getD, List.getElem?_eq_getElem hj]
        by_cases hjc : j = cpu
        · rw [← hget, hjc, hloc]
        · rcases stealFrom_eq_none.mp hsteal j (List.mem_range.mpr hj) with h' | h'
          · exact absurd h' hjc
          · rw [← hget, h']
  · -- all empty → none
    intro h
    rw [kalloc_eq_empty (getD_eq_nil_of_all_nil h cpu)
      (stealFrom_eq_none.mpr (fun i _ => Or.inr (getD_eq_nil_of_all_nil h i)))]
  · -- none → state unchanged
    intro h
    cases hloc : st.freelists.getD cpu [] with
    | cons r rest => rw [kalloc_eq_local hloc] at h; cases h
    | nil =>
      cases hsteal : stealFrom cpu st (List.range st.freelists.length) with
      | some v =>
        obtain ⟨i, r, rest⟩ := v
        rw [kalloc_eq_steal hloc hsteal] at h
        cases h
      | none => rw [kalloc_eq_empty hloc hsteal]
  · -- local pop
    intro r rest hloc
    rw [kalloc_eq_local hloc]
    exact ⟨rfl, rfl⟩
  · -- steal
    intro hloc r h
    cases hsteal : stealFrom cpu st (List.range st.freelists.length) with
    | none => rw [kalloc_eq_empty hloc hsteal] at h; cases h
    | some v =>
      obtain ⟨i, r', rest⟩ := v
      rw [kalloc_eq_steal hloc hsteal] at h
      have hr : r = r' := (Option.some_injective _ h).symm
      subst hr
      obtain ⟨hmem, hne, hgd, l1, l2, hsplit, hfirst⟩ := stealFrom_eq_some hsteal
      rw [kalloc_eq_steal hloc hsteal]
      refine ⟨i, rest, List.mem_range.mp hmem, hne, hgd, ?_, rfl⟩
      intro j hj hjc
      -- `List.range n = l1 ++ i :: l2` forces `l1 = List.range i`
      have hleni : i = l1.length := by
        have h1 : (List.range st.freelists.length)[l1.length]? = some i := by
          rw [hsplit]
          rw [List.getElem?_append_right (Nat.le_refl _)]
          simp
        have h2 : l1.length < st.freelists.length := by
          by_contra hc
          rw [List.getElem?_eq_none (by simpa using Nat.le_of_not_lt hc)] at h1
          cases h1
        rw [List.getElem?_range h2] at h1
        exact (Option.some_injective _ h1).symm
      have htake : List.take l1.length (List.range st.freelists.length) = l1 := by
        have := congrArg (fun l => List.take l1.length l) hsplit
        simpa [List.take_left] using this
      have hlen_le : l1.length ≤ st.freelists.length := by
        have hlen := congrArg List.length hsplit
        simp at hlen
        omega
      have hl1 : l1 = List.range i := by
        rw [← htake, List.take_range, Nat.min_eq_left hlen_le, ← hleni]
      have : j ∈ l1 := by
        rw [hl1]
        exact List.mem_range.mpr (by omega)
      rcases hfirst j this with h' | h'
      · exact absurd h' hjc
      · exact h'

/-- C7 (witness) — concrete steal: core 0's list empty, one page on core 1's
list; `kalloc` on core 0 succeeds and removes exactly that page from exactly
core 1's list. -/
theorem kalloc_pop_or_steal_witness :
    ∃ i rest, i < ({ freelists := [[], [4096]], mem := fun _ => 0 } : KState).freelists.length ∧
      i ≠ 0 ∧
      ({ freelists := [[], [4096]], mem := fun _ => 0 } : KState).freelists.getD i [] = 4096 :: rest ∧
      (∀ j, j < i → j ≠ 0 →
        ({ freelists := [[], [4096]], mem := fun _ => 0 } : KState).freelists.getD j [] = []) ∧
      (kalloc 0 { freelists := [[], [4096]], mem := fun _ => 0 }).2.freelists =
        ({ freelists := [[], [4096]], mem := fun _ => 0 } : KState).freelists.set i rest :=
  (kalloc_pop_or_steal 0 { freelists := [[], [4096]], mem := fun _ => 0 }).2.2.2 rfl 4096 rfl

/-! ## `kinit` / `freerange` -/

theorem PGROUNDUP_ge (s : Nat) : s ≤ PGROUNDUP s := by
  unfold PGROUNDUP PGSIZE
  have h1 := Nat.div_add_mod (s + 4096 - 1) 4096
  have h2 := Nat.mod_lt (s + 4096 - 1) (show 0 < 4096 by norm_num)
  omega

theorem PGROUNDUP_mod (s : Nat) : PGROUNDUP s % PGSIZE = 0 := by
  unfold PGROUNDUP
  exact Nat.mul_mod_left _ _

/-- Every page visited by `freerange(s, e)` is page-aligned and lies in
`[s, e)` (in fact the whole page fits below `e`). -/
theorem pagesIn_bounds (s e : Nat) :
    ∀ p ∈ pagesIn s e, p % PGSIZE = 0 ∧ s ≤ p ∧ p + PGSIZE ≤ e := by
  intro p hp
  unfold pagesIn at hp
  rw [List.mem_map] at hp
  obtain ⟨i, hi, rfl⟩ := hp
  rw [List.mem_range] at hi
  refine ⟨?_, ?_, ?_⟩
  · rw [Nat.add_mul_mod_self_left]
    exact PGROUNDUP_mod s
  · exact Nat.le_add_right_of_le (PGROUNDUP_ge s)
  · have h1 : (i + 1) * PGSIZE ≤ ((e - PGROUNDUP s) / PGSIZE) * PGSIZE :=
      Nat.mul_le_mul_right _ hi
    have h2 := Nat.div_mul_le_self (e - PGROUNDUP s) PGSIZE
    simp only [PGSIZE] at h1 h2 ⊢
    omega

/-- The `freerange` fold succeeds on any list of valid pages, pushing them all
(in reverse order of visit) onto the calling core's free list and leaving
every other list unchanged. -/
theorem freerange_fold (endA physTop cpu : Nat) (ps : List Nat)
    (hps : ∀ p ∈ ps, p % PGSIZE = 0 ∧ endA ≤ p ∧ p < physTop) :
    ∀ st : KState, cpu < st.freelists.length →
      ∃ st', ps.foldl (fun acc p => acc.bind (kfree endA physTop cpu p)) (some st) = some st' ∧
        st'.freelists.length = st.freelists.length ∧
        st'.freelists.getD cpu [] = ps.reverse ++ st.freelists.getD cpu [] ∧
        (∀ j, j ≠ cpu → st'.freelists.getD j [] = st.freelists.getD j []) := by
  induction ps with
  | nil => exact fun st _ => ⟨st, rfl, rfl, rfl, fun _ _ => rfl⟩
  | cons p ps ih =>
    intro st hcpu
    obtain ⟨h1, h2, h3⟩ := hps p (List.mem_cons_self _ _)
    have hstep : kfree endA physTop cpu p st =
        some { freelists := st.freelists.set cpu (p :: st.freelists.getD cpu []),
               mem := fun a => if p ≤ a ∧ a < p + PGSIZE then 1 else st.mem a } := by
      unfold kfree
      rw [if_neg (by omega)]
    obtain ⟨st', hfold, hlen, hcpu', hoth⟩ :=
      ih (fun q hq => hps q (List.mem_cons_of_mem _ hq))
        { freelists := st.freelists.set cpu (p :: st.freelists.getD cpu []),
          mem := fun a => if p ≤ a ∧ a < p + PGSIZE then 1 else st.mem a }
        (by simpa [List.length_set] using hcpu)
    refine ⟨st', ?_, ?_, ?_, ?_⟩
    · rw [List.foldl_cons]
      have hb : (some st).bind (kfree endA physTop cpu p) = kfree endA physTop cpu p st := rfl
      rw [hb, hstep]
      exact hfold
    · rw [hlen]
      simp [List.length_set]
    · rw [hcpu']
      simp only [getD_set_self _ _ _ _ hcpu]
      rw [List.reverse_cons, List.append_assoc]
      rfl
    · intro j hj
      rw [hoth j hj, getD_set_of_ne _ _ _ _ _ (fun e => hj e.symm)]

theorem kinit_eq_fold (endA physTop ncpu cpu : Nat) :
    kinit endA physTop ncpu cpu =
      (pagesIn endA physTop).foldl
        (fun acc p => acc.bind (kfree endA physTop cpu p))
        (some { freelists := List.replicate ncpu [], mem := fun _ => 0 }) := rfl

/-- C1 (amended) — `kinit` succeeds, and puts every page of the managed range
on the free list of the single core that runs the initialization (in reverse
scan order); every other core's free list is left empty. -/
theorem kinit_single_core (endA physTop ncpu cpu : Nat) (hcpu : cpu < ncpu) :
    ∃ st, kinit endA physTop ncpu cpu = some st ∧
      st.freelists.length = ncpu ∧
      st.freelists.getD cpu [] = (pagesIn endA physTop).reverse ∧
      (∀ j, j ≠ cpu → st.freelists.getD j [] = []) := by
  obtain ⟨st', h1, h2, h3, h4⟩ :=
    freerange_fold endA physTop cpu (pagesIn endA physTop)
      (fun p hp => by
        obtain ⟨a, b, c⟩ := pagesIn_bounds endA physTop p hp
        have : 0 < PGSIZE := by unfold PGSIZE; norm_num
        exact ⟨a, b, by omega⟩)
      { freelists := List.replicate ncpu [], mem := fun _ => 0 }
      (by simpa using hcpu)
  refine ⟨st', ?_, ?_, ?_, ?_⟩
  · rw [kinit_eq_fold]; exact h1
  · simpa using h2
  · rw [h3, getD_replicate_nil, List.append_nil]
  · intro j hj
    rw [h4 j hj, getD_replicate_nil]

/-- C1 (witness) — a concrete instance of the amended claim: 2 cores, range
`[0, 8192)`, initialization run by core 0. -/
theorem kinit_single_core_witness :
    0 < 2 ∧
    ∃ st, kinit 0 8192 2 0 = some st ∧
      st.freelists.length = 2 ∧
      st.freelists.getD 0 [] = (pagesIn 0 8192).reverse ∧
      (∀ j, j ≠ 0 → st.freelists.getD j [] = []) :=
  ⟨by decide, kinit_single_core 0 8192 2 0 (by decide)⟩

/-- C1 (counterexample) — after `kinit` on a 2-core machine managing two pages,
core 1's free list is empty (`true` = `isEmpty`) while core 0 holds both
pages: initialization does not distribute the range across the per-core
lists. -/
theorem kinit_not_partitioned :
    (kinit 0 8192 2 0).map (fun st => st.freelists.map (fun l => l.isEmpty)) =
      some [false, true] ∧
    pagesIn 0 8192 = [0, 4096] := by
  exact ⟨rfl, rfl⟩

/-! ## Reachable allocator states (C8) -/

theorem foldl_kfree_none {endA physTop cpu : Nat} {ps : List Nat} {st' : KState}
    (h : ps.foldl (fun acc p => acc.bind (kfree endA physTop cpu p)) none = some st') :
    False := by
  induction ps with
  | nil => cases h
  | cons p ps ih => exact ih h

theorem good_fold {endA physTop cpu : Nat} {ps : List Nat} :
    ∀ (st st' : KState),
      ps.foldl (fun acc p => acc.bind (kfree endA physTop cpu p)) (some st) = some st' →
      Good endA physTop st → Good endA physTop st' := by
  induction ps with
  | nil =>
    intro st st' h hg
    cases h
    exact hg
  | cons p ps ih =>
    intro st st' h hg
    rw [List.foldl_cons] at h
    replace h : ps.foldl (fun acc p => acc.bind (kfree endA physTop cpu p))
        (kfree endA physTop cpu p st) = some st' := h
    cases hk : kfree endA physTop cpu p st with
    | none =>
      rw [hk] at h
      exact absurd (foldl_kfree_none h) (by simp)
    | some st1 =>
      rw [hk] at h
      exact ih st1 st' h (good_kfree hk hg)

theorem good_kinit {endA physTop ncpu cpu : Nat} {st : KState}
    (h : kinit endA physTop ncpu cpu = some st) : Good endA physTop st := by
  rw [kinit_eq_fold] at h
  refine good_fold _ _ h ?_
  intro l hl
  rw [List.eq_of_mem_replicate hl]
  intro a ha
  cases ha

theorem reach_good {endA physTop : Nat} {st : KState}
    (h : Reach endA physTop st) : Good endA physTop st := by
  induction h with
  | init ncpu cpu st h => exact good_kinit h
  | free st cpu pa st' hr h ih => exact good_kfree h ih
  | alloc st cpu hr ih => exact good_kalloc ih

/-- C8 — in any state reachable through `kinit`, `kfree` and `kalloc`, every
page returned by `kalloc` is page-aligned and lies in the managed range
`[endA, physTop)`. -/
theorem kalloc_bounds (endA physTop cpu : Nat) (st : KState) (r : Nat)
    (hre : Reach endA physTop st) (h : (kalloc cpu st).1 = some r) :
    r % PGSIZE = 0 ∧ endA ≤ r ∧ r < physTop := by
  obtain ⟨l, hl, hrl⟩ := kalloc_some_mem h
  exact reach_good hre l hl r hrl

/-- C8 (witness) — a concrete reachable 2-core state in which `kalloc`
returns page 4096, which is aligned and inside `[0, 8192)`. -/
theorem kalloc_bounds_witness :
    (kalloc 0 ((kinit 0 8192 2 0).getD default)).1 = some 4096 ∧
    4096 % PGSIZE = 0 ∧ 0 ≤ 4096 ∧ 4096 < 8192 :=
  ⟨rfl, kalloc_bounds 0 8192 0 _ 4096 (Reach.init 2 0 _ rfl) rfl⟩

/-! ## Buffer cache: pointer dereference lemmas -/

theorem default_shard_order : (default : Shard).order = [] := rfl

theorem default_shard_slots : (default : Shard).slots = [] := rfl

theorem wfB_ref {c : BCache} (hwf : wfB c = true) {s : Nat} {r : BRef}
    (hr : r ∈ (c.shards.getD s default).order) :
    r.1 < c.shards.length ∧ r.2 < ((c.shards.getD r.1 default).slots.length) := by
  rcases Nat.lt_or_ge s c.shards.length with hs | hs
  · have hmem : c.shards.getD s default ∈ c.shards := by
      rw [List.getD_eq_getElem?_getD, List.getElem?_eq_getElem hs]
      exact List.getElem_mem hs
    have h1 := List.all_eq_true.mp hwf _ hmem
    have h2 := List.all_eq_true.mp h1 r hr
    rw [Bool.and_eq_true, decide_eq_true_eq, decide_eq_true_eq] at h2
    exact h2
  · rw [List.getD_eq_getElem?_getD, List.getElem?_eq_none (by simpa using hs)] at hr
    cases hr

theorem getSlot_setSlot_self {c : BCache} {r : BRef} (b : Buf)
    (h1 : r.1 < c.shards.length)
    (h2 : r.2 < ((c.shards.getD r.1 default).slots.length)) :
    getSlot (setSlot c r b) r = b := by
  unfold getSlot setSlot
  rw [getD_set_self _ _ _ _ h1]
  exact getD_set_self _ _ _ _ h2

theorem getSlot_setSlot_ne {c : BCache} {r r' : BRef} (b : Buf) (h : r' ≠ r) :
    getSlot (setSlot c r b) r' = getSlot c r' := by
  unfold getSlot setSlot
  by_cases h1 : r'.1 = r.1
  · have h2 : r'.2 ≠ r.2 := fun h2 => h (Prod.ext h1 h2)
    rcases Nat.lt_or_ge r.1 c.shards.length with hlen | hlen
    · rw [h1, getD_set_self _ _ _ _ hlen]
      rw [getD_set_of_ne _ _ _ _ _ (fun e => h2 e.symm)]
    · rw [List.set_eq_of_length_le hlen]
  · rw [getD_set_of_ne _ _ _ _ _ (fun e => h1 e.symm)]

theorem shards_length_setSlot (c : BCache) (r : BRef) (b : Buf) :
    (setSlot c r b).shards.length = c.shards.length := by
  unfold setSlot
  exact List.length_set ..

theorem order_setSlot (c : BCache) (r : BRef) (b : Buf) (s : Nat) :
    ((setSlot c r b).shards.getD s default).order =
      (c.shards.getD s default).order := by
  unfold setSlot
  by_cases h : s = r.1
  · subst h
    rcases Nat.lt_or_ge r.1 c.shards.length with hlen | hlen
    · rw [getD_set_self _ _ _ _ hlen]
    · rw [List.set_eq_of_length_le hlen]
  · rw [getD_set_of_ne _ _ _ _ _ (fun e => h e.symm)]

theorem slots_length_setSlot (c : BCache) (r : BRef) (b : Buf) (s : Nat) :
    ((setSlot c r b).shards.getD s default).slots.length =
      (c.shards.getD s default).slots.length := by
  unfold setSlot
  by_cases h : s = r.1
  · subst h
    rcases Nat.lt_or_ge r.1 c.shards.length with hlen | hlen
    · rw [getD_set_self _ _ _ _ hlen]
      exact List.length_set ..
    · rw [List.set_eq_of_length_le hlen]
  · rw [getD_set_of_ne _ _ _ _ _ (fun e => h e.symm)]

theorem length_unlinkAll (c : BCache) (r : BRef) :
    (unlinkAll c r).length = c.shards.length := by
  unfold unlinkAll
  exact List.length_map ..

theorem slots_unlinkAll (c : BCache) (r : BRef) (t : Nat) :
    ((unlinkAll c r).getD t default).slots = (c.shards.getD t default).slots := by
  unfold unlinkAll
  rcases Nat.lt_or_ge t c.shards.length with ht | ht
  · rw [List.getD_eq_getElem?_getD, List.getElem?_map,
        List.getElem?_eq_getElem ht, List.getD_eq_getElem?_getD,
        List.getElem?_eq_getElem ht]
    rfl
  · rw [List.getD_eq_getElem?_getD,
        List.getElem?_eq_none (by simpa using ht),
        List.getD_eq_getElem?_getD,
        List.getElem?_eq_none (by simpa using ht)]

theorem order_unlinkAll (c : BCache) (r : BRef) (t : Nat) :
    ((unlinkAll c r).getD t default).order =
      (c.shards.getD t default).order.filter (fun x => x ≠ r) := by
  unfold unlinkAll
  rcases Nat.lt_or_ge t c.shards.length with ht | ht
  · rw [List.getD_eq_getElem?_getD, List.getElem?_map,
        List.getElem?_eq_getElem ht, List.getD_eq_getElem?_getD,
        List.getElem?_eq_getElem ht]
    rfl
  · rw [List.getD_eq_getElem?_getD,
        List.getElem?_eq_none (by simpa using ht),
        List.getD_eq_getElem?_getD,
        List.getElem?_eq_none (by simpa using ht)]
    rfl

theorem slots_relinkHead (c : BCache) (bn : Nat) (r : BRef) (s : Nat) :
    ((relinkHead c bn r).shards.getD s default).slots =
      (c.shards.getD s default).slots := by
  unfold relinkHead
  by_cases h : s = bn
  · subst h
    rcases Nat.lt_or_ge s (unlinkAll c r).length with hlen | hlen
    · rw [getD_set_self _ _ _ _ hlen]
      exact slots_unlinkAll c r s
    · rw [List.set_eq_of_length_le hlen]
      exact slots_unlinkAll c r s
  · rw [getD_set_of_ne _ _ _ _ _ (fun e => h e.symm)]
    exact slots_unlinkAll c r s

theorem getSlot_relinkHead (c : BCache) (bn : Nat) (r r' : BRef) :
    getSlot (relinkHead c bn r) r' = getSlot c r' := by
  unfold getSlot
  rw [show ((relinkHead c bn r).shards.getD r'.1 default).slots =
      ((c.shards.getD r'.1 default).slots) from slots_relinkHead c bn r r'.1]

theorem order_relinkHead_self (c : BCache) (bn : Nat) (r : BRef)
    (hbn : bn < c.shards.length) :
    ((relinkHead c bn r).shards.getD bn default).order =
      r :: ((c.shards.getD bn default).order.filter (fun x => x ≠ r)) := by
  unfold relinkHead
  have hlen : bn < (unlinkAll c r).length := by
    rw [length_unlinkAll]
    exact hbn
  rw [getD_set_self _ _ _ _ hlen]
  exact congrArg (fun l => r :: l) (order_unlinkAll c r bn)

theorem order_relinkHead_other (c : BCache) (bn : Nat) (r : BRef) (s : Nat)
    (hs : s ≠ bn) :
    ((relinkHead c bn r).shards.getD s default).order =
      ((c.shards.getD s default).order.filter (fun x => x ≠ r)) := by
  unfold relinkHead
  rw [getD_set_of_ne _ _ _ _ _ (fun e => hs e.symm)]
  exact order_unlinkAll c r s

/-! ## C4, C10, C5 — `bwrite`, `brelse`, `bunpin` -/

/-- C4 — without the slot's exclusive lock, both `bwrite` and `brelse` abort
fatally; with it held, neither aborts: `bwrite` performs exactly one
synchronous storage write of the slot's payload, and `brelse` proceeds to
release the lock. -/
theorem bwrite_brelse_require_lock (c : BCache) (r : BRef)
    (h1 : r.1 < c.shards.length)
    (h2 : r.2 < ((c.shards.getD r.1 default).slots.length)) :
    ((getSlot c r).lockHeld = false →
        bwrite c r = none ∧ brelse c r = none) ∧
    ((getSlot c r).lockHeld = true →
        bwrite c r = some [{ dev := (getSlot c r).dev,
                             blockno := (getSlot c r).blockno,
                             isWrite := true, payload := (getSlot c r).data }] ∧
        ∃ c', brelse c r = some c' ∧ (getSlot c' r).lockHeld = false) := by
  constructor
  · intro h
    unfold bwrite brelse
    rw [h]
    exact ⟨rfl, rfl⟩
  · intro h
    refine ⟨by unfold bwrite; rw [h]; rfl, ?_⟩
    unfold brelse
    rw [h]
    by_cases hz : ((getSlot c r).refcnt + (U32 - 1)) % U32 = 0
    · rw [if_pos hz]
      refine ⟨_, by rfl, ?_⟩
      rw [getSlot_relinkHead]
      rw [getSlot_setSlot_self _ h1 h2]
    · rw [if_neg hz]
      refine ⟨_, by rfl, ?_⟩
      rw [getSlot_setSlot_self _ h1 h2]

/-- C4 (witness) — a one-shard, one-slot cache: with the lock not held both
calls abort; with it held, `bwrite` emits one write and `brelse` succeeds. -/
theorem bwrite_brelse_require_lock_witness :
    (bwrite { shards := [{ order := [((0, 0) : BRef)],
                           slots := [{ dev := 3, blockno := 0, valid := true,
                                       refcnt := 1, lockHeld := true,
                                       data := 9 }] }] } (0, 0) =
      some [{ dev := 3, blockno := 0, isWrite := true, payload := 9 }]) ∧
    (∃ c', brelse { shards := [{ order := [((0, 0) : BRef)],
                                 slots := [{ dev := 3, blockno := 0, valid := true,
                                             refcnt := 1, lockHeld := true,
                                             data := 9 }] }] } (0, 0) = some c' ∧
      (getSlot c' (0, 0)).lockHeld = false) :=
  (bwrite_brelse_require_lock _ (0, 0) (by decide) (by decide)).2 rfl

/-- C10 — `bunpin` decrements `refcnt` unconditionally, with no `refcnt > 0`
check and no fatal abort (it is total): on a slot with `refcnt = 0` the
`uint` counter wraps to `2^32 - 1`, after which the slot fails the
`refcnt == 0` recycling test; nothing else changes. -/
theorem bunpin_wraps (c : BCache) (r : BRef)
    (h1 : r.1 < c.shards.length)
    (h2 : r.2 < ((c.shards.getD r.1 default).slots.length)) :
    (getSlot (bunpin c r) r).refcnt = ((getSlot c r).refcnt + (U32 - 1)) % U32 ∧
    ((getSlot c r).refcnt = 0 →
        (getSlot (bunpin c r) r).refcnt = U32 - 1 ∧
        (getSlot (bunpin c r) r).refcnt ≠ 0) ∧
    (getSlot (bunpin c r) r).dev = (getSlot c r).dev ∧
    (getSlot (bunpin c r) r).blockno = (getSlot c r).blockno ∧
    (getSlot (bunpin c r) r).valid = (getSlot c r).valid ∧
    (getSlot (bunpin c r) r).lockHeld = (getSlot c r).lockHeld ∧
    (getSlot (bunpin c r) r).data = (getSlot c r).data ∧
    (∀ r', r' ≠ r → getSlot (bunpin c r) r' = getSlot c r') ∧
    (∀ s, ((bunpin c r).shards.getD s default).order =
        (c.shards.getD s default).order) := by
  unfold bunpin
  rw [getSlot_setSlot_self _ h1 h2]
  refine ⟨rfl, ?_, rfl, rfl, rfl, rfl, rfl, ?_, ?_⟩
  · intro h
    rw [h]
    constructor
    · rw [Nat.zero_add, Nat.mod_eq_of_lt (by norm_num [U32])]
    · rw [Nat.zero_add, Nat.mod_eq_of_lt (by norm_num [U32])]
      norm_num [U32]
  · intro r' hr'
    exact getSlot_setSlot_ne _ hr'
  · intro s
    exact order_setSlot c r _ s

/-- C10 (witness) — on a concrete slot with `refcnt = 0`, `bunpin` leaves
`refcnt = 2^32 - 1 ≠ 0`. -/
theorem bunpin_wraps_witness :
    (getSlot (bunpin { shards := [{ order := [((0, 0) : BRef)],
                                    slots := [{}] }] } (0, 0)) (0, 0)).refcnt
        = U32 - 1 ∧
    (getSlot (bunpin { shards := [{ order := [((0, 0) : BRef)],
                                    slots := [{}] }] } (0, 0)) (0, 0)).refcnt ≠ 0 :=
  ((bunpin_wraps _ (0, 0) (by decide) (by decide)).2.1 rfl)

/-- C5 — with the exclusive lock held, `brelse` decrements `refcnt` by exactly
one (as a `uint`, i.e. modulo `2^32`), releases the lock, and changes no other
field of any slot; if the new count is zero the slot is unlinked from its
current list position and relinked at the head of the recency list of shard
`blockno % NBUCKETS`, and if it is nonzero every recency list is unchanged. -/
theorem brelse_decrement_and_relink (c : BCache) (r : BRef)
    (hlen : c.shards.length = NBUCKETS)
    (h1 : r.1 < c.shards.length)
    (h2 : r.2 < ((c.shards.getD r.1 default).slots.length))
    (hl : (getSlot c r).lockHeld = true) :
    ∃ c', brelse c r = some c' ∧
      (getSlot c' r).refcnt = ((getSlot c r).refcnt + (U32 - 1)) % U32 ∧
      (0 < (getSlot c r).refcnt → (getSlot c r).refcnt < U32 →
        (getSlot c' r).refcnt = (getSlot c r).refcnt - 1) ∧
      (getSlot c' r).dev = (getSlot c r).dev ∧
      (getSlot c' r).blockno = (getSlot c r).blockno ∧
      (getSlot c' r).valid = (getSlot c r).valid ∧
      (getSlot c' r).data = (getSlot c r).data ∧
      (getSlot c' r).lockHeld = false ∧
      (∀ r', r' ≠ r → getSlot c' r' = getSlot c r') ∧
      (((getSlot c r).refcnt + (U32 - 1)) % U32 = 0 →
        ((c'.shards.getD ((getSlot c r).blockno % NBUCKETS) default).order =
          r :: ((c.shards.getD ((getSlot c r).blockno % NBUCKETS) default).order.filter
            (fun x => x ≠ r))) ∧
        (∀ s, s ≠ (getSlot c r).blockno % NBUCKETS →
          (c'.shards.getD s default).order =
            (c.shards.getD s default).order.filter (fun x => x ≠ r))) ∧
      (((getSlot c r).refcnt + (U32 - 1)) % U32 ≠ 0 →
        ∀ s, (c'.shards.getD s default).order = (c.shards.getD s default).order) := by
  have hmod : 0 < (getSlot c r).refcnt → (getSlot c r).refcnt < U32 →
      ((getSlot c r).refcnt + (U32 - 1)) % U32 = (getSlot c r).refcnt - 1 := by
    intro ha hb
    simp only [U32] at *
    omega
  have hbn : (getSlot c r).blockno % NBUCKETS < c.shards.length := by
    rw [hlen]
    exact Nat.mod_lt _ (by norm_num [NBUCKETS])
  unfold brelse
  rw [hl]
  by_cases hz : ((getSlot c r).refcnt + (U32 - 1)) % U32 = 0
  · rw [if_pos rfl, if_pos hz]
    refine ⟨_, rfl, ?_⟩
    rw [getSlot_relinkHead, getSlot_setSlot_self _ h1 h2]
    refine ⟨rfl, hmod, rfl, rfl, rfl, rfl, rfl, ?_, ?_, ?_⟩
    · intro r' hr'
      rw [getSlot_relinkHead, getSlot_setSlot_ne _ hr']
    · intro _
      constructor
      · rw [order_relinkHead_self _ _ _
            (by rw [shards_length_setSlot]; exact hbn)]
        rw [order_setSlot]
      · intro s hs
        rw [order_relinkHead_other _ _ _ _ hs, order_setSlot]
    · intro hnz
      exact absurd hz hnz
  · rw [if_pos rfl, if_neg hz]
    refine ⟨_, rfl, ?_⟩
    rw [getSlot_setSlot_self _ h1 h2]
    refine ⟨rfl, hmod, rfl, rfl, rfl, rfl, rfl, ?_, ?_, ?_⟩
    · intro r' hr'
      rw [getSlot_setSlot_ne _ hr']
    · intro hz'
      exact absurd hz' hz
    · intro _ s
      rw [order_setSlot]

/-- C5 (witness) — a concrete one-shard cache (`shards.length` padded to
`NBUCKETS`): releasing a slot with `refcnt = 1` relinks it at the head. -/
theorem brelse_decrement_and_relink_witness :
    ∃ c', brelse { shards := [{ order := [((0, 1) : BRef), (0, 0)],
                                slots := [{ dev := 1, blockno := 7, valid := true,
                                            refcnt := 1, lockHeld := true, data := 4 },
                                          { dev := 1, blockno := 14 }] },
                               {}, {}, {}, {}, {}, {}] } (0, 0) = some c' ∧
      (getSlot c' (0, 0)).refcnt =
        ((getSlot { shards := [{ order := [((0, 1) : BRef), (0, 0)],
                                 slots := [{ dev := 1, blockno := 7, valid := true,
                                             refcnt := 1, lockHeld := true, data := 4 },
                                           { dev := 1, blockno := 14 }] },
                                {}, {}, {}, {}, {}, {}] } (0, 0)).refcnt + (U32 - 1)) % U32 ∧
      (0 < (getSlot { shards := [{ order := [((0, 1) : BRef), (0, 0)],
                                   slots := [{ dev := 1, blockno := 7, valid := true,
                                               refcnt := 1, lockHeld := true, data := 4 },
                                             { dev := 1, blockno := 14 }] },
                                  {}, {}, {}, {}, {}, {}] } (0, 0)).refcnt →
        (getSlot { shards := [{ order := [((0, 1) : BRef), (0, 0)],
                                slots := [{ dev := 1, blockno := 7, valid := true,
                                            refcnt := 1, lockHeld := true, data := 4 },
                                          { dev := 1, blockno := 14 }] },
                               {}, {}, {}, {}, {}, {}] } (0, 0)).refcnt < U32 →
        (getSlot c' (0, 0)).refcnt =
          (getSlot { shards := [{ order := [((0, 1) : BRef), (0, 0)],
                                  slots := [{ dev := 1, blockno := 7, valid := true,
                                              refcnt := 1, lockHeld := true, data := 4 },
                                            { dev := 1, blockno := 14 }] },
                                 {}, {}, {}, {}, {}, {}] } (0, 0)).refcnt - 1) ∧
      (getSlot c' (0, 0)).dev = 1 ∧
      (getSlot c' (0, 0)).blockno = 7 ∧
      (getSlot c' (0, 0)).valid = true ∧
      (getSlot c' (0, 0)).data = 4 ∧
      (getSlot c' (0, 0)).lockHeld = false ∧
      (∀ r', r' ≠ ((0, 0) : BRef) →
        getSlot c' r' = getSlot { shards := [{ order := [((0, 1) : BRef), (0, 0)],
                                               slots := [{ dev := 1, blockno := 7, valid := true,
                                                           refcnt := 1, lockHeld := true, data := 4 },
                                                         { dev := 1, blockno := 14 }] },
                                              {}, {}, {}, {}, {}, {}] } r') ∧
      ((1 + (U32 - 1)) % U32 = 0 →
        ((c'.shards.getD 0 default).order =
          (0, 0) :: ([((0, 1) : BRef), (0, 0)].filter (fun x => x ≠ ((0, 0) : BRef)))) ∧
        (∀ s, s ≠ 0 →
          (c'.shards.getD s default).order =
            (({ shards := [{ order := [((0, 1) : BRef), (0, 0)],
                             slots := [{ dev := 1, blockno := 7, valid := true,
                                         refcnt := 1, lockHeld := true, data := 4 },
                                       { dev := 1, blockno := 14 }] },
                            {}, {}, {}, {}, {}, {}] } : BCache).shards.getD s default).order.filter
              (fun x => x ≠ ((0, 0) : BRef)))) ∧
      ((1 + (U32 - 1)) % U32 ≠ 0 →
        ∀ s, (c'.shards.getD s default).order =
          (({ shards := [{ order := [((0, 1) : BRef), (0, 0)],
                           slots := [{ dev := 1, blockno := 7, valid := true,
                                       refcnt := 1, lockHeld := true, data := 4 },
                                     { dev := 1, blockno := 14 }] },
                          {}, {}, {}, {}, {}, {}] } : BCache).shards.getD s default).order) :=
  brelse_decrement_and_relink _ (0, 0) (by decide) (by decide) (by decide) rfl

/-! ## C2, C3 — `bget` and `bread` -/

theorem bget_eq_hit {c : BCache} {dev blockno : Nat} {r : BRef}
    (h : hitScan c dev blockno = some r) :
    bget c dev blockno = some (r, setSlot c r { getSlot c r with
      refcnt := ((getSlot c r).refcnt + 1) % U32, lockHeld := true }) := by
  unfold bget
  rw [h]

theorem bget_eq_recycle {c : BCache} {dev blockno : Nat} {r : BRef}
    (h1 : hitScan c dev blockno = none) (h2 : recycleScan c blockno = some r) :
    bget c dev blockno = some (r, setSlot c r { getSlot c r with
      dev := dev, blockno := blockno, valid := false, refcnt := 1,
      lockHeld := true }) := by
  unfold bget
  rw [h1, h2]

theorem bget_eq_abort {c : BCache} {dev blockno : Nat}
    (h1 : hitScan c dev blockno = none) (h2 : recycleScan c blockno = none) :
    bget c dev blockno = none := by
  unfold bget
  rw [h1, h2]

/-- C2 — `bget(dev, blockno)` on shard `blockno % NBUCKETS`: if some listed
slot matches the identity, the scan hits; the hit slot gets `refcnt`
incremented and every other field, every other slot and every recency list
are unchanged (no duplicate is created).  On a miss, the recycle scan runs
tail-to-head and can only select a slot with `refcnt = 0`; the victim's
identity is overwritten, `valid` cleared and `refcnt` set to 1, all else
unchanged.  If additionally no slot has `refcnt = 0`, the call aborts
fatally (`none`) — a slot with `refcnt > 0` is never recycled. -/
theorem bget_hit_recycle_abort (c : BCache) (dev blockno : Nat)
    (hwf : wfB c = true) :
    ((∃ r ∈ (c.shards.getD (blockno % NBUCKETS) default).order,
        bmatch dev blockno (getSlot c r) = true) →
      (hitScan c dev blockno).isSome) ∧
    (∀ r, hitScan c dev blockno = some r →
      bmatch dev blockno (getSlot c r) = true ∧
      ∃ c', bget c dev blockno = some (r, c') ∧
        (getSlot c' r).dev = (getSlot c r).dev ∧
        (getSlot c' r).blockno = (getSlot c r).blockno ∧
        (getSlot c' r).valid = (getSlot c r).valid ∧
        (getSlot c' r).data = (getSlot c r).data ∧
        (getSlot c' r).refcnt = ((getSlot c r).refcnt + 1) % U32 ∧
        (getSlot c' r).lockHeld = true ∧
        (∀ r', r' ≠ r → getSlot c' r' = getSlot c r') ∧
        (∀ s, (c'.shards.getD s default).order =
          (c.shards.getD s default).order)) ∧
    (hitScan c dev blockno = none →
      ∀ r, recycleScan c blockno = some r →
        (getSlot c r).refcnt = 0 ∧
        ∃ c', bget c dev blockno = some (r, c') ∧
          (getSlot c' r).dev = dev ∧
          (getSlot c' r).blockno = blockno ∧
          (getSlot c' r).valid = false ∧
          (getSlot c' r).refcnt = 1 ∧
          (getSlot c' r).lockHeld = true ∧
          (getSlot c' r).data = (getSlot c r).data ∧
          (∀ r', r' ≠ r → getSlot c' r' = getSlot c r') ∧
          (∀ s, (c'.shards.getD s default).order =
            (c.shards.getD s default).order)) ∧
    ((recycleScan c blockno = none) ↔
      ∀ r ∈ (c.shards.getD (blockno % NBUCKETS) default).order,
        (getSlot c r).refcnt ≠ 0) ∧
    (hitScan c dev blockno = none → recycleScan c blockno = none →
      bget c dev blockno = none) := by
  refine ⟨?_, ?_, ?_, ?_, fun h1 h2 => bget_eq_abort h1 h2⟩
  · rintro ⟨r, hr, hm⟩
    unfold hitScan
    exact List.find?_isSome.mpr ⟨r, hr, hm⟩
  · intro r h
    have hf : ((c.shards.getD (blockno % NBUCKETS) default).order).find?
        (fun x => bmatch dev blockno (getSlot c x)) = some r := h
    have hmem : r ∈ (c.shards.getD (blockno % NBUCKETS) default).order :=
      List.mem_of_find?_eq_some hf
    obtain ⟨hr1, hr2⟩ := wfB_ref hwf hmem
    have hpm := List.find?_some hf
    refine ⟨hpm, _, bget_eq_hit h, ?_⟩
    rw [getSlot_setSlot_self _ hr1 hr2]
    refine ⟨rfl, rfl, rfl, rfl, rfl, rfl, ?_, ?_⟩
    · intro r' hr'
      exact getSlot_setSlot_ne _ hr'
    · intro s
      exact order_setSlot c r _ s
  · intro hnone r h
    have hf : ((c.shards.getD (blockno % NBUCKETS) default).order).reverse.find?
        (fun x => decide ((getSlot c x).refcnt = 0)) = some r := h
    have hmem : r ∈ (c.shards.getD (blockno % NBUCKETS) default).order :=
      List.mem_reverse.mp (List.mem_of_find?_eq_some hf)
    obtain ⟨hr1, hr2⟩ := wfB_ref hwf hmem
    have hrc : (getSlot c r).refcnt = 0 := by
      have := List.find?_some hf
      simpa using this
    refine ⟨hrc, _, bget_eq_recycle hnone h, ?_⟩
    rw [getSlot_setSlot_self _ hr1 hr2]
    refine ⟨rfl, rfl, rfl, rfl, rfl, rfl, ?_, ?_⟩
    · intro r' hr'
      exact getSlot_setSlot_ne _ hr'
    · intro s
      exact order_setSlot c r _ s
  · unfold recycleScan
    rw [List.find?_eq_none]
    constructor
    · intro h r hr
      have := h r (List.mem_reverse.mpr hr)
      simpa using this
    · intro h r hr
      have := h r (List.mem_reverse.mp hr)
      simpa using this

/-- C2 (witness) — a two-slot shard: a hit on the cached block (1, 7)
increments its `refcnt`; with no hit, the tail-to-head scan recycles the
`refcnt = 0` slot. -/
theorem bget_hit_recycle_abort_witness :
    (hitScan { shards := [{ order := [((0, 1) : BRef), (0, 0)],
                            slots := [{ dev := 1, blockno := 7, refcnt := 0 },
                                      { dev := 1, blockno := 14, refcnt := 2 }] },
                           {}, {}, {}, {}, {}, {}] } 1 7 = some (0, 0)) ∧
    (bmatch 1 7 (getSlot { shards := [{ order := [((0, 1) : BRef), (0, 0)],
                                        slots := [{ dev := 1, blockno := 7, refcnt := 0 },
                                                  { dev := 1, blockno := 14, refcnt := 2 }] },
                                       {}, {}, {}, {}, {}, {}] } (0, 0)) = true ∧
     ∃ c', bget { shards := [{ order := [((0, 1) : BRef), (0, 0)],
                               slots := [{ dev := 1, blockno := 7, refcnt := 0 },
                                         { dev := 1, blockno := 14, refcnt := 2 }] },
                              {}, {}, {}, {}, {}, {}] } 1 7 = some ((0, 0), c') ∧
       (getSlot c' (0, 0)).dev = 1 ∧
       (getSlot c' (0, 0)).blockno = 7 ∧
       (getSlot c' (0, 0)).valid = false ∧
       (getSlot c' (0, 0)).data = 0 ∧
       (getSlot c' (0, 0)).refcnt = (0 + 1) % U32 ∧
       (getSlot c' (0, 0)).lockHeld = true ∧
       (∀ r', r' ≠ ((0, 0) : BRef) →
         getSlot c' r' = getSlot { shards := [{ order := [((0, 1) : BRef), (0, 0)],
                                                slots := [{ dev := 1, blockno := 7, refcnt := 0 },
                                                          { dev := 1, blockno := 14, refcnt := 2 }] },
                                               {}, {}, {}, {}, {}, {}] } r') ∧
       (∀ s, (c'.shards.getD s default).order =
         (({ shards := [{ order := [((0, 1) : BRef), (0, 0)],
                          slots := [{ dev := 1, blockno := 7, refcnt := 0 },
                                    { dev := 1, blockno := 14, refcnt := 2 }] },
                         {}, {}, {}, {}, {}, {}] } : BCache).shards.getD s default).order)) :=
  ⟨rfl,
   ((bget_hit_recycle_abort { shards := [{ order := [((0, 1) : BRef), (0, 0)],
                                           slots := [{ dev := 1, blockno := 7, refcnt := 0 },
                                                     { dev := 1, blockno := 14, refcnt := 2 }] },
                                          {}, {}, {}, {}, {}, {}] } 1 7 (by decide)).2.1
     (0, 0) rfl).imp_right (fun hx => hx)⟩

/-- Inversion of a successful `bget`: the returned state is a single-slot
update of the input, and the returned reference was on the shard's recency
list. -/
theorem bget_some_setSlot {c : BCache} {dev blockno : Nat} {r : BRef} {c1 : BCache}
    (h : bget c dev blockno = some (r, c1)) :
    (∃ b : Buf, c1 = setSlot c r b) ∧
    r ∈ (c.shards.getD (blockno % NBUCKETS) default).order := by
  cases hh : hitScan c dev blockno with
  | some r' =>
    rw [bget_eq_hit hh] at h
    have h2 := Option.some_injective _ h
    have hr : r' = r := congrArg Prod.fst h2
    subst hr
    refine ⟨⟨_, (congrArg Prod.snd h2).symm⟩, ?_⟩
    have hf : ((c.shards.getD (blockno % NBUCKETS) default).order).find?
        (fun x => bmatch dev blockno (getSlot c x)) = some r' := hh
    exact List.mem_of_find?_eq_some hf
  | none =>
    cases hh2 : recycleScan c blockno with
    | some r' =>
      rw [bget_eq_recycle hh hh2] at h
      have h2 := Option.some_injective _ h
      have hr : r' = r := congrArg Prod.fst h2
      subst hr
      refine ⟨⟨_, (congrArg Prod.snd h2).symm⟩, ?_⟩
      have hf : ((c.shards.getD (blockno % NBUCKETS) default).order).reverse.find?
          (fun x => decide ((getSlot c x).refcnt = 0)) = some r' := hh2
      exact List.mem_reverse.mp (List.mem_of_find?_eq_some hf)
    | none =>
      rw [bget_eq_abort hh hh2] at h
      cases h

/-- C3 — `bread(dev, blockno)` calls `bget`; if the returned slot is already
valid it performs zero storage operations and returns it unchanged; if it is
invalid it performs exactly one synchronous storage read into the payload and
marks the slot valid before returning; the aborting behaviour is `bget`'s. -/
theorem bread_io_minimality (disk : Nat → Nat → Nat) (c : BCache)
    (dev blockno : Nat) (hwf : wfB c = true) :
    (bget c dev blockno = none → bread disk c dev blockno = none) ∧
    (∀ r c1, bget c dev blockno = some (r, c1) →
      ((getSlot c1 r).valid = true →
        bread disk c dev blockno = some (r, c1, [])) ∧
      ((getSlot c1 r).valid = false →
        ∃ c2, bread disk c dev blockno =
            some (r, c2, [{ dev := (getSlot c1 r).dev,
                            blockno := (getSlot c1 r).blockno,
                            isWrite := false }]) ∧
          (getSlot c2 r).valid = true ∧
          (getSlot c2 r).data = disk (getSlot c1 r).dev (getSlot c1 r).blockno ∧
          (getSlot c2 r).dev = (getSlot c1 r).dev ∧
          (getSlot c2 r).blockno = (getSlot c1 r).blockno ∧
          (getSlot c2 r).refcnt = (getSlot c1 r).refcnt ∧
          (getSlot c2 r).lockHeld = (getSlot c1 r).lockHeld ∧
          (∀ r', r' ≠ r → getSlot c2 r' = getSlot c1 r') ∧
          (∀ s, (c2.shards.getD s default).order =
            (c1.shards.getD s default).order))) := by
  constructor
  · intro h
    unfold bread
    rw [h]
  · intro r c1 h
    have hin : r.1 < c1.shards.length ∧
        r.2 < ((c1.shards.getD r.1 default).slots.length) := by
      obtain ⟨⟨b, hc1⟩, hmem⟩ := bget_some_setSlot h
      obtain ⟨h1, h2⟩ := wfB_ref hwf hmem
      subst hc1
      refine ⟨?_, ?_⟩
      · rw [shards_length_setSlot]
        exact h1
      · rw [slots_length_setSlot]
        exact h2
    constructor
    · intro hv
      unfold bread
      rw [h]
      simp only []
      rw [if_pos hv]
    · intro hv
      unfold bread
      rw [h]
      simp only []
      rw [if_neg (by rw [hv]; simp)]
      refine ⟨_, rfl, ?_⟩
      rw [getSlot_setSlot_self _ hin.1 hin.2]
      refine ⟨rfl, rfl, rfl, rfl, rfl, rfl, ?_, ?_⟩
      · intro r' hr'
        exact getSlot_setSlot_ne _ hr'
      · intro s
        exact order_setSlot c1 r _ s

/-- C3 (witness) — on a one-slot shard holding an invalid cached copy of
block (1, 7), `bread` performs exactly one read, fills the payload from the
disk oracle and marks the slot valid; re-reading the now-valid slot performs
zero storage operations. -/
theorem bread_io_minimality_witness :
    ∃ c2, bread (fun d b => 100 * d + b)
        { shards := [{ order := [((0, 0) : BRef)],
                       slots := [{ dev := 1, blockno := 7, valid := false,
                                   refcnt := 0 }] },
                      {}, {}, {}, {}, {}, {}] } 1 7 =
        some ((0, 0), c2, [{ dev := 1, blockno := 7, isWrite := false }]) ∧
      (getSlot c2 (0, 0)).valid = true ∧
      (getSlot c2 (0, 0)).data = 107 := by
  have hb : bget { shards := [{ order := [((0, 0) : BRef)],
                                slots := [{ dev := 1, blockno := 7, valid := false,
                                            refcnt := 0 }] },
                               {}, {}, {}, {}, {}, {}] } 1 7 =
      some (((0, 0) : BRef),
        setSlot { shards := [{ order := [((0, 0) : BRef)],
                               slots := [{ dev := 1, blockno := 7, valid := false,
                                           refcnt := 0 }] },
                              {}, {}, {}, {}, {}, {}] } (0, 0)
          { dev := 1, blockno := 7, valid := false, refcnt := 1,
            lockHeld := true, data := 0 }) := rfl
  obtain ⟨c2, h1, h2, h3, _⟩ :=
    ((bread_io_minimality (fun d b => 100 * d + b)
        { shards := [{ order := [((0, 0) : BRef)],
                       slots := [{ dev := 1, blockno := 7, valid := false,
                                   refcnt := 0 }] },
                      {}, {}, {}, {}, {}, {}] } 1 7 (by decide)).2 _ _ hb).2 rfl
  exact ⟨c2, h1, h2, h3 ▸ rfl⟩

/-! ## C9 — the LRU scenario -/

theorem getD_map_range {α : Type} (f : Nat → α) (n i : Nat) (d : α) :
    ((List.range n).map f).getD i d = if i < n then f i else d := by
  rcases Nat.lt_or_ge i n with h | h
  · rw [List.getD_eq_getElem?_getD, List.getElem?_map, List.getElem?_range h,
        if_pos h]
    rfl
  · rw [List.getD_eq_getElem?_getD, List.getElem?_eq_none (by simpa using h),
        if_neg (Nat.not_lt.mpr h)]
    rfl

theorem getElem?_map_range {α : Type} (f : Nat → α) (n i : Nat) :
    ((List.range n).map f)[i]? = if i < n then some (f i) else none := by
  rcases Nat.lt_or_ge i n with h | h
  · rw [List.getElem?_map, List.getElem?_range h, if_pos h]
    rfl
  · rw [List.getElem?_eq_none (by simpa using h), if_neg (Nat.not_lt.mpr h)]

theorem lruState_shard0 (K j : Nat) :
    (lruState K j).shards.getD 0 default = lruShard0 K j := by
  unfold lruState
  rw [getD_map_range]
  norm_num [NBUCKETS]

theorem lruState_length (K j : Nat) : (lruState K j).shards.length = NBUCKETS := by
  unfold lruState
  rw [List.length_map, List.length_range]

theorem getSlot_lruState (K j i : Nat) :
    getSlot (lruState K j) (0, i) =
      if i < K then (if i < j then relBuf i else {}) else default := by
  show ((lruState K j).shards.getD 0 default).slots.getD i default = _
  rw [lruState_shard0]
  unfold lruShard0
  rw [getD_map_range]

theorem bmatch_lruState (K j i : Nat) :
    bmatch 1 (7 * j) (getSlot (lruState K j) (0, i)) = false := by
  rw [getSlot_lruState]
  by_cases h1 : i < K
  · rw [if_pos h1]
    by_cases h2 : i < j
    · rw [if_pos h2]
      simp only [bmatch, relBuf, Bool.and_eq_false_iff, decide_eq_false_iff_not]
      right
      omega
    · rw [if_neg h2]
      rfl
  · rw [if_neg h1]
    rfl

theorem mul7_mod_NBUCKETS (j : Nat) : 7 * j % NBUCKETS = 0 := by
  simp [NBUCKETS, Nat.mul_mod_right]

theorem hitScan_lruState (K j : Nat) :
    hitScan (lruState K j) 1 (7 * j) = none := by
  unfold hitScan
  rw [mul7_mod_NBUCKETS, lruState_shard0]
  apply List.find?_eq_none.mpr
  intro x hx
  unfold lruShard0 at hx
  rw [List.mem_map] at hx
  obtain ⟨i, _, rfl⟩ := hx
  simp only [bmatch_lruState]
  simp

theorem recycleScan_lruState {K j : Nat} (hj : j < K) :
    recycleScan (lruState K j) (7 * j) = some (0, j) := by
  unfold recycleScan
  rw [mul7_mod_NBUCKETS, lruState_shard0]
  unfold lruShard0
  rw [← List.map_reverse, List.reverse_append, List.reverse_reverse,
      List.reverse_reverse]
  rw [show K - j = (K - j - 1) + 1 from by omega, List.range'_succ j _ 1]
  rw [List.cons_append, List.map_cons]
  apply List.find?_cons_of_pos
  simp [getSlot_lruState, hj]

theorem setSlot_setSlot (c : BCache) (r : BRef) (b1 b2 : Buf) :
    setSlot (setSlot c r b1) r b2 = setSlot c r b2 := by
  unfold setSlot
  rcases Nat.lt_or_ge r.1 c.shards.length with hlen | hlen
  · rw [List.set_set, getD_set_self _ _ _ _ hlen]
    simp only [List.set_set]
  · rw [List.set_eq_of_length_le hlen, List.set_eq_of_length_le hlen]

theorem bget_lruState {K j : Nat} (hj : j < K) :
    bget (lruState K j) 1 (7 * j) = some (((0, j) : BRef),
      setSlot (lruState K j) (0, j)
        { dev := 1, blockno := 7 * j, valid := false, refcnt := 1,
          lockHeld := true, data := 0 }) := by
  rw [bget_eq_recycle (hitScan_lruState K j) (recycleScan_lruState hj)]
  have hgs : getSlot (lruState K j) (0, j) = {} := by
    rw [getSlot_lruState, if_pos hj, if_neg (Nat.lt_irrefl j)]
  rw [hgs]

theorem lruShard0_order_step {K j : Nat} (hj : j < K) :
    (((0, j) : BRef)) :: ((lruShard0 K j).order.filter (fun x => x ≠ ((0, j) : BRef))) =
      (lruShard0 K (j + 1)).order := by
  unfold lruShard0
  rw [show K - j = (K - j - 1) + 1 from by omega, List.range'_succ j _ 1,
      List.reverse_cons]
  rw [List.map_append, List.map_append, List.filter_append, List.filter_append]
  have hA : (((List.range j).reverse).map (fun i => ((0, i) : BRef))).filter
      (fun x => x ≠ ((0, j) : BRef)) =
      ((List.range j).reverse).map (fun i => ((0, i) : BRef)) := by
    apply List.filter_eq_self.mpr
    intro y hy
    rw [List.mem_map] at hy
    obtain ⟨i, hi, rfl⟩ := hy
    rw [List.mem_reverse, List.mem_range] at hi
    simp only [ne_eq, decide_eq_true_eq, Prod.mk.injEq, not_and]
    intro _
    omega
  have hB : (((List.range' (j + 1) (K - j - 1)).reverse).map
        (fun i => ((0, i) : BRef))).filter (fun x => x ≠ ((0, j) : BRef)) =
      ((List.range' (j + 1) (K - j - 1)).reverse).map (fun i => ((0, i) : BRef)) := by
    apply List.filter_eq_self.mpr
    intro y hy
    rw [List.mem_map] at hy
    obtain ⟨i, hi, rfl⟩ := hy
    rw [List.mem_reverse, List.mem_range'_1] at hi
    simp only [ne_eq, decide_eq_true_eq, Prod.mk.injEq, not_and]
    intro _
    omega
  have hC : (([j].map (fun i => ((0, i) : BRef))).filter
      (fun x => x ≠ ((0, j) : BRef))) = [] := by
    simp
  rw [hA, hB, hC, List.append_nil]
  rw [show List.range (j + 1) = List.range j ++ [j] from List.range_succ j,
      List.reverse_append, List.reverse_singleton]
  rw [show K - (j + 1) = K - j - 1 from by omega]
  simp [List.map_cons, List.map_append]

theorem lruShard0_slots_step {K j : Nat} (hj : j < K) :
    (lruShard0 K j).slots.set j (relBuf j) = (lruShard0 K (j + 1)).slots := by
  unfold lruShard0
  apply List.ext_getElem?
  intro n
  by_cases hn : n = j
  · subst hn
    rw [List.getElem?_set_self', getElem?_map_range, getElem?_map_range,
        if_pos hj, if_pos hj]
    simp [Nat.lt_succ_self]
  · rw [List.getElem?_set_ne (fun e => hn e.symm)]
    rw [getElem?_map_range, getElem?_map_range]
    by_cases hnK : n < K
    · rw [if_pos hnK, if_pos hnK]
      by_cases hnj : n < j
      · rw [if_pos hnj, if_pos (by omega : n < j + 1)]
      · rw [if_neg hnj, if_neg (by omega : ¬n < j + 1)]
    · rw [if_neg hnK, if_neg hnK]

theorem list_ext_getD {α : Type} {l1 l2 : List α} (d : α)
    (hlen : l1.length = l2.length)
    (h : ∀ n, n < l1.length → l1.getD n d = l2.getD n d) : l1 = l2 := by
  apply List.ext_getElem hlen
  intro n h1 h2
  have hn := h n h1
  rw [List.getD_eq_getElem?_getD, List.getElem?_eq_getElem h1,
      List.getD_eq_getElem?_getD, List.getElem?_eq_getElem h2] at hn
  simpa using hn

theorem binitShard_filter {s K j : Nat} (hs : s ≠ 0) :
    (binitShard s K).order.filter (fun x => x ≠ ((0, j) : BRef)) =
      (binitShard s K).order := by
  apply List.filter_eq_self.mpr
  intro y hy
  unfold binitShard at hy
  rw [List.mem_reverse, List.mem_map] at hy
  obtain ⟨i, _, rfl⟩ := hy
  simp only [ne_eq, decide_eq_true_eq, Prod.mk.injEq, not_and]
  intro h
  exact absurd h hs

/-- The shard-array update performed by `setSlot` in the scenario, spelled
out. -/
theorem lru_setSlot_shards {K j : Nat} :
    (setSlot (lruState K j) (0, j) (relBuf j)).shards =
      (lruState K j).shards.set 0
        { order := (lruShard0 K j).order,
          slots := (lruShard0 K j).slots.set j (relBuf j) } := by
  show (lruState K j).shards.set 0
      (let sh := (lruState K j).shards.getD 0 default
       { sh with slots := sh.slots.set j (relBuf j) }) = _
  rw [lruState_shard0]

/-- After `bget` and `brelse` of block `7*j`, the cache is exactly the
`(j+1)`-round scenario state. -/
theorem lru_assembly {K j : Nat} (hj : j < K) :
    relinkHead (setSlot (lruState K j) (0, j) (relBuf j)) 0 ((0, j) : BRef) =
      lruState K (j + 1) := by
  have hlen7 : (lruState K j).shards.length = 7 := by
    rw [lruState_length]
    rfl
  have hlenS : (setSlot (lruState K j) (0, j) (relBuf j)).shards.length = 7 := by
    rw [lru_setSlot_shards, List.length_set, hlen7]
  have hlenU : (unlinkAll (setSlot (lruState K j) (0, j) (relBuf j)) (0, j)).length = 7 := by
    rw [length_unlinkAll, hlenS]
  have hgd0 : (setSlot (lruState K j) (0, j) (relBuf j)).shards.getD 0 default =
      { order := (lruShard0 K j).order,
        slots := (lruShard0 K j).slots.set j (relBuf j) } := by
    rw [lru_setSlot_shards]
    exact getD_set_self _ _ _ _ (by rw [hlen7]; norm_num)
  have hgdn : ∀ n, n ≠ 0 → n < 7 →
      (setSlot (lruState K j) (0, j) (relBuf j)).shards.getD n default =
        binitShard n K := by
    intro n hn0 hn7
    rw [lru_setSlot_shards, getD_set_of_ne _ _ _ _ _ (fun e => hn0 e.symm)]
    show (lruState K j).shards.getD n default = _
    unfold lruState
    rw [getD_map_range, if_pos (by simpa [NBUCKETS] using hn7), if_neg hn0]
  have hX : (unlinkAll (setSlot (lruState K j) (0, j) (relBuf j)) (0, j)).getD 0 default =
      { order := (lruShard0 K j).order.filter (fun x => x ≠ ((0, j) : BRef)),
        slots := (lruShard0 K j).slots.set j (relBuf j) } := by
    show (⟨((unlinkAll (setSlot (lruState K j) (0, j) (relBuf j)) (0, j)).getD 0 default).order,
           ((unlinkAll (setSlot (lruState K j) (0, j) (relBuf j)) (0, j)).getD 0 default).slots⟩ : Shard) = _
    rw [order_unlinkAll, slots_unlinkAll, hgd0]
  have hXn : ∀ n, n ≠ 0 → n < 7 →
      (unlinkAll (setSlot (lruState K j) (0, j) (relBuf j)) (0, j)).getD n default =
        binitShard n K := by
    intro n hn0 hn7
    show (⟨((unlinkAll (setSlot (lruState K j) (0, j) (relBuf j)) (0, j)).getD n default).order,
           ((unlinkAll (setSlot (lruState K j) (0, j) (relBuf j)) (0, j)).getD n default).slots⟩ : Shard) = _
    rw [order_unlinkAll, slots_unlinkAll, hgdn n hn0 hn7, binitShard_filter hn0]
  unfold relinkHead
  congr 1
  rw [hX]
  apply list_ext_getD (default : Shard)
  · rw [List.length_set, hlenU, List.length_map, List.length_range]
    rfl
  · intro n hn
    rw [List.length_set, hlenU] at hn
    by_cases hn0 : n = 0
    · subst hn0
      rw [getD_set_self _ _ _ _ (by rw [hlenU]; norm_num)]
      show _ = (lruState K (j + 1)).shards.getD 0 default
      rw [lruState_shard0]
      show (⟨((0, j) : BRef) ::
            (lruShard0 K j).order.filter (fun x => x ≠ ((0, j) : BRef)),
            (lruShard0 K j).slots.set j (relBuf j)⟩ : Shard) = _
      rw [lruShard0_order_step hj, lruShard0_slots_step hj]
    · rw [getD_set_of_ne _ _ _ _ _ (fun e => hn0 e.symm), hXn n hn0 hn]
      show _ = (lruState K (j + 1)).shards.getD n default
      unfold lruState
      rw [getD_map_range, if_pos (by simpa [NBUCKETS] using hn), if_neg hn0]

theorem slots_length_lruState (K j : Nat) :
    ((lruState K j).shards.getD 0 default).slots.length = K := by
  rw [lruState_shard0]
  unfold lruShard0
  rw [List.length_map, List.length_range]

theorem lruRound_step {K j : Nat} (hj : j < K) :
    lruRound (lruState K j) j = some (lruState K (j + 1)) := by
  unfold lruRound
  rw [bget_lruState hj]
  simp only []
  have hgs2 : getSlot (setSlot (lruState K j) (0, j)
      { dev := 1, blockno := 7 * j, valid := false, refcnt := 1,
        lockHeld := true, data := 0 }) (0, j) =
      { dev := 1, blockno := 7 * j, valid := false, refcnt := 1,
        lockHeld := true, data := 0 } := by
    apply getSlot_setSlot_self
    · show 0 < (lruState K j).shards.length
      rw [lruState_length]
      norm_num [NBUCKETS]
    · show j < ((lruState K j).shards.getD 0 default).slots.length
      rw [slots_length_lruState]
      exact hj
  unfold brelse
  rw [hgs2]
  rw [if_pos rfl,
      if_pos (show (({ dev := 1, blockno := 7 * j, valid := false, refcnt := 1,
                       lockHeld := true, data := 0 } : Buf).refcnt +
          (U32 - 1)) % U32 = 0 from by norm_num [U32])]
  rw [setSlot_setSlot]
  show some (relinkHead (setSlot (lruState K j) (0, j)
      ({ dev := 1, blockno := 7 * j, valid := false,
         refcnt := (1 + (U32 - 1)) % U32, lockHeld := false, data := 0 } : Buf))
      (7 * j % NBUCKETS) ((0, j) : BRef)) = some (lruState K (j + 1))
  rw [show ((1 : Nat) + (U32 - 1)) % U32 = 0 from by norm_num [U32],
      mul7_mod_NBUCKETS,
      show ({ dev := 1, blockno := 7 * j, valid := false, refcnt := 0,
              lockHeld := false, data := 0 } : Buf) = relBuf j from rfl,
      lru_assembly hj]

theorem binit_eq_lruState0 (K : Nat) : binit K = lruState K 0 := by
  unfold binit lruState
  congr 1
  apply List.map_congr_left
  intro s _
  by_cases hs : s = 0
  · subst hs
    rw [if_pos rfl]
    unfold binitShard lruShard0
    congr 1
    · show ((List.range K).map (fun i => ((0, i) : BRef))).reverse =
        ((List.range' 0 K).reverse).map (fun i => ((0, i) : BRef))
      rw [← List.map_reverse, List.range_eq_range' K]
    · apply list_ext_getD ({} : Buf)
      · rw [List.length_replicate, List.length_map, List.length_range]
      · intro n hn
        rw [List.length_replicate] at hn
        rw [getD_map_range, if_pos hn, if_neg (Nat.not_lt_zero n)]
        simp [List.getD_eq_getElem?_getD, List.getElem?_replicate, hn]
  · rw [if_neg hs]

theorem lruScenario_fold (K : Nat) :
    ∀ n j, j + n = K →
      (List.range' j n).foldlM lruRound (lruState K j) = some (lruState K K) := by
  intro n
  induction n with
  | zero =>
    intro j hj
    rw [show j = K from by omega]
    rfl
  | succ n ih =>
    intro j hj
    rw [List.range'_succ j n 1, List.foldlM_cons, lruRound_step (by omega : j < K)]
    show (List.range' (j + 1) n).foldlM lruRound (lruState K (j + 1)) = _
    exact ih (j + 1) (by omega)

theorem lruScenario_eq (K : Nat) : lruScenario K = some (lruState K K) := by
  unfold lruScenario
  rw [binit_eq_lruState0, List.range_eq_range' K]
  exact lruScenario_fold K K 0 (by omega)

theorem hitScan_lruState_final (K : Nat) :
    hitScan (lruState K K) 1 (7 * K) = none :=
  hitScan_lruState K K

theorem recycleScan_lruState_final {K : Nat} (hK : 0 < K) :
    recycleScan (lruState K K) (7 * K) = some (0, 0) := by
  obtain ⟨K', rfl⟩ : ∃ K', K = K' + 1 := ⟨K - 1, by omega⟩
  unfold recycleScan
  rw [mul7_mod_NBUCKETS, lruState_shard0]
  unfold lruShard0
  rw [← List.map_reverse, List.reverse_append, List.reverse_reverse,
      List.reverse_reverse, Nat.sub_self]
  rw [show List.range' (K' + 1) 0 = [] from rfl, List.nil_append]
  rw [List.range_eq_range' (K' + 1), List.range'_succ 0 K' 1, List.map_cons]
  apply List.find?_cons_of_pos
  have h0 : getSlot (lruState (K' + 1) (K' + 1)) (0, 0) = relBuf 0 := by
    rw [getSlot_lruState, if_pos (Nat.zero_lt_succ K'),
        if_pos (Nat.zero_lt_succ K')]
  show decide ((getSlot (lruState (K' + 1) (K' + 1)) ((0 : Nat), (0 : Nat))).refcnt = 0) = true
  rw [h0]
  rfl

/-- C9 — for a shard with `K` slots: acquiring and then releasing the `K`
distinct blocks `7*0 … 7*(K-1)` of shard 0 in order, then acquiring the
`(K+1)`-th distinct block `7*K`, recycles the slot holding block `7*0` — the
block released first — and that slot's `refcnt` was 0 when selected (a slot
with positive `refcnt` is never recycled, see `bget_hit_recycle_abort`). -/
theorem lru_evicts_first_released (K : Nat) (hK : 0 < K) :
    ∃ cK, lruScenario K = some cK ∧
      ∃ cF, bget cK 1 (7 * K) = some (((0, 0) : BRef), cF) ∧
        (getSlot cK (0, 0)).dev = 1 ∧
        (getSlot cK (0, 0)).blockno = 7 * 0 ∧
        (getSlot cK (0, 0)).refcnt = 0 ∧
        (getSlot cF (0, 0)).blockno = 7 * K ∧
        (getSlot cF (0, 0)).refcnt = 1 := by
  refine ⟨lruState K K, lruScenario_eq K, ?_⟩
  have hgs0 : getSlot (lruState K K) (0, 0) = relBuf 0 := by
    rw [getSlot_lruState, if_pos hK, if_pos hK]
  have hbget := bget_eq_recycle (hitScan_lruState_final K)
    (recycleScan_lruState_final hK)
  refine ⟨_, hbget, ?_, ?_, ?_, ?_, ?_⟩
  · rw [hgs0]
    rfl
  · rw [hgs0]
    rfl
  · rw [hgs0]
    rfl
  · rw [getSlot_setSlot_self]
    · show 0 < (lruState K K).shards.length
      rw [lruState_length]
      norm_num [NBUCKETS]
    · show 0 < ((lruState K K).shards.getD 0 default).slots.length
      rw [slots_length_lruState]
      exact hK
  · rw [getSlot_setSlot_self]
    · show 0 < (lruState K K).shards.length
      rw [lruState_length]
      norm_num [NBUCKETS]
    · show 0 < ((lruState K K).shards.getD 0 default).slots.length
      rw [slots_length_lruState]
      exact hK

/-- C9 (witness) — the scenario at `K = 3`: after acquire+release of blocks
0, 7, 14, acquiring block 21 recycles the slot holding block 0. -/
theorem lru_evicts_first_released_witness :
    0 < 3 ∧
    ∃ cK, lruScenario 3 = some cK ∧
      ∃ cF, bget cK 1 (7 * 3) = some (((0, 0) : BRef), cF) ∧
        (getSlot cK (0, 0)).dev = 1 ∧
        (getSlot cK (0, 0)).blockno = 7 * 0 ∧
        (getSlot cK (0, 0)).refcnt = 0 ∧
        (getSlot cF (0, 0)).blockno = 7 * 3 ∧
        (getSlot cF (0, 0)).refcnt = 1 :=
  ⟨by decide, lru_evicts_first_released 3 (by decide)⟩

end Xv6
